import Mathlib

/-!
Verification of the kuyruk Master supervisor (src/kuyruk/master.py).

The embedding translates the Python source into executable Lean
definitions:

* the queue-spec parser `parse_queues_str` / `parse_count` / `parse_local`
  (module-level functions of master.py), with Python string `split`,
  `strip` and `int()` modelled on explicit character lists and the
  `ValueError` raised by a non-numeric `int()` argument surfaced through
  `Except`;
* the Master's mutable state (`workers`, `shutdown_pending`,
  `override_queues`, the configuration's `WORKERS` mapping) as a record,
  with process spawning represented by a fresh-pid counter and all OS
  side effects (killpg, os.kill, spawning) recorded as an event trace;
* one pass of `Master._wait_for_workers` as a recursive function over the
  snapshot `list(self.workers)`, mirroring the alive / respawn / retire
  branches of the loop body;
* `Master.stop_workers`, the signal handlers, `Master.reload` and
  `Master._kill_pg`, with OS-level signal delivery outcomes supplied by
  an oracle so that error propagation matches the `try/except` structure
  of the source;
* the receive/dispatch step of `Master._send_status`, where a command
  name is resolved with `getattr(self, f)` and only `socket.error` is
  caught.
-/

/-! ### Python string primitives (character-list models) -/

/-- Characters stripped by Python's `str.strip()` (and accepted around an
`int()` literal): space, tab, newline, carriage return, vertical tab,
form feed. -/
def isPySpace (c : Char) : Bool :=
  c = ' ' || c = '\t' || c = '\n' || c = '\r' || c = Char.ofNat 11 || c = Char.ofNat 12

/-- `str.strip()` on a character list: drop whitespace from both ends. -/
def stripChars (l : List Char) : List Char :=
  ((l.dropWhile isPySpace).reverse.dropWhile isPySpace).reverse

/-- `str.strip()` on a string, as used in `parse_queues_str`. -/
def pyStrip (s : String) : String :=
  ⟨stripChars s.data⟩

/-- `s.split(sep)` for a one-character separator and no maxsplit, Python
semantics: splitting the empty string yields `[[]]`, and every separator
occurrence produces a boundary. -/
def splitChar (sep : Char) : List Char → List (List Char)
  | [] => [[]]
  | c :: cs =>
    if c = sep then [] :: splitChar sep cs
    else
      match splitChar sep cs with
      | [] => [[c]]
      | t :: ts => (c :: t) :: ts

/-- `s.split(sep, 1)` restricted to what `parse_count` consumes: `none`
when the separator does not occur, otherwise the pieces before and after
its first occurrence. -/
def splitOnceChar (sep : Char) : List Char → Option (List Char × List Char)
  | [] => none
  | c :: cs =>
    if c = sep then some ([], cs)
    else
      match splitOnceChar sep cs with
      | none => none
      | some (l, r) => some (c :: l, r)

/-- `s.split(sep)` lifted to `String`. -/
def pySplit (s : String) (sep : Char) : List String :=
  (splitChar sep s.data).map (fun l => String.mk l)

/-- Numeric value of a digit list (most significant first). -/
def digitsVal (l : List Char) : Nat :=
  l.foldl (fun a c => a * 10 + (c.toNat - '0'.toNat)) 0

/-- Python 2 `int(s)` on a string argument: optional surrounding
whitespace, an optional sign, then a non-empty run of decimal digits;
anything else raises `ValueError` (modelled as `none`). -/
def pyIntOfChars (l : List Char) : Option Int :=
  match stripChars l with
  | [] => none
  | '+' :: ds =>
    if ds.isEmpty then none
    else if ds.all Char.isDigit then some (digitsVal ds : Nat) else none
  | '-' :: ds =>
    if ds.isEmpty then none
    else if ds.all Char.isDigit then some (-(digitsVal ds : Int)) else none
  | ds => if ds.all Char.isDigit then some (digitsVal ds : Nat) else none

/-! ### The queue-spec parser (master.py lines 191-212) -/

/-- The exception a malformed multiplier raises inside the parser: the
`ValueError` of `int(parts[0])` in `parse_count`. -/
inductive ParseError where
  | valueError
  deriving DecidableEq, Repr

deriving instance DecidableEq for Except

/-- `parse_count(q)` (master.py lines 202-206): split once on `*`; with a
left part present, `int(parts[0]) * [parts[1]]` (a negative or zero count
yields the empty list, a non-numeric count raises), else the token alone. -/
def parse_count (q : String) : Except ParseError (List String) :=
  match splitOnceChar '*' q.data with
  | none => .ok [q]
  | some (l, r) =>
    match pyIntOfChars l with
    | none => .error .valueError
    | some n => .ok (List.replicate n.toNat (String.mk r))

/-- `parse_local(q)` (master.py lines 209-212): a leading `@` is replaced
by scoping the name to the local host, `"%s_%s" % (q[1:], hostname)`. -/
def parse_local (hostname q : String) : String :=
  match q.data with
  | [] => q
  | c :: rest => if c = '@' then ⟨rest ++ '_' :: hostname.data⟩ else q

/-- The iteration of `parse_count` over the stripped tokens, with the
first `ValueError` propagating (the generator pipeline in
`parse_queues_str` forces every token when the final list is built). -/
def collectCounts : List String → Except ParseError (List (List String))
  | [] => .ok []
  | q :: qs =>
    match parse_count q with
    | .error e => .error e
    | .ok r =>
      match collectCounts qs with
      | .error e => .error e
      | .ok rs => .ok (r :: rs)

/-- `parse_queues_str(s)` (master.py lines 191-199): split on `,`, strip
each token, expand multipliers with `parse_count`, flatten, then apply
`parse_local` to every resulting name. `hostname` stands for
`socket.gethostname()`. -/
def parse_queues_str (hostname s : String) : Except ParseError (List String) :=
  match collectCounts ((pySplit s ',').map pyStrip) with
  | .error e => .error e
  | .ok rs => .ok (rs.flatten.map (parse_local hostname))

/-! ### Parser lemmas -/

theorem splitOnceChar_eq_none {sep : Char} {l : List Char} (h : sep ∉ l) :
    splitOnceChar sep l = none := by
  induction l with
  | nil => rfl
  | cons c cs ih =>
    simp only [List.mem_cons, not_or] at h
    simp [splitOnceChar, Ne.symm h.1, ih h.2]

theorem splitChar_eq_single {sep : Char} {l : List Char} (h : sep ∉ l) :
    splitChar sep l = [l] := by
  induction l with
  | nil => rfl
  | cons c cs ih =>
    simp only [List.mem_cons, not_or] at h
    simp [splitChar, Ne.symm h.1, ih h.2]

theorem splitChar_append {sep : Char} {x rest : List Char} (h : sep ∉ x) :
    splitChar sep (x ++ sep :: rest) = x :: splitChar sep rest := by
  induction x with
  | nil => simp [splitChar]
  | cons c cs ih =>
    simp only [List.mem_cons, not_or] at h
    simp [splitChar, Ne.symm h.1, ih h.2]

/-- Joining with a separator, as `",".join` does: the inverse direction of
`splitChar` used to state idempotence of the parser. -/
def joinSep (sep : Char) : List (List Char) → List Char
  | [] => []
  | [x] => x
  | x :: xs => x ++ sep :: joinSep sep xs

/-- Comma-joining a list of queue names. -/
def joinComma (l : List String) : String :=
  ⟨joinSep ',' (l.map String.data)⟩

theorem splitChar_joinSep {sep : Char} :
    ∀ {l : List (List Char)}, l ≠ [] → (∀ x ∈ l, sep ∉ x) →
      splitChar sep (joinSep sep l) = l
  | [], h, _ => absurd rfl h
  | [x], _, hx => by
    simpa [joinSep] using splitChar_eq_single (hx x (by simp))
  | x :: y :: ys, _, hx => by
    have hxm : sep ∉ x := hx x (by simp)
    have ih : splitChar sep (joinSep sep (y :: ys)) = y :: ys :=
      splitChar_joinSep (by simp) (fun z hz => hx z (by simp [hz]))
    calc splitChar sep (joinSep sep (x :: y :: ys))
        = splitChar sep (x ++ sep :: joinSep sep (y :: ys)) := by rfl
      _ = x :: splitChar sep (joinSep sep (y :: ys)) := splitChar_append hxm
      _ = x :: y :: ys := by rw [ih]

/-- A plain, already-expanded queue name: no `*`, no comma, no leading `@`
and no surrounding whitespace. -/
def plainName (q : String) : Prop :=
  '*' ∉ q.data ∧ ',' ∉ q.data ∧ q.data.head? ≠ some '@' ∧ pyStrip q = q

instance : DecidablePred plainName := fun q => by
  unfold plainName; infer_instance

theorem parse_count_plain {q : String} (h : '*' ∉ q.data) :
    parse_count q = .ok [q] := by
  simp [parse_count, splitOnceChar_eq_none h]

theorem parse_local_plain {hostname q : String} (h : q.data.head? ≠ some '@') :
    parse_local hostname q = q := by
  unfold parse_local
  cases hd : q.data with
  | nil => rfl
  | cons c cs =>
    rw [hd] at h
    have hc : c ≠ '@' := fun hc => h (by simp [List.head?, hc])
    simp [hc]

theorem collectCounts_singletons :
    ∀ {toks : List String}, (∀ q ∈ toks, parse_count q = .ok [q]) →
      collectCounts toks = .ok (toks.map fun q => [q])
  | [], _ => rfl
  | q :: qs, h => by
    have ih := collectCounts_singletons (fun t ht => h t (List.mem_cons_of_mem _ ht))
    simp [collectCounts, h q (List.mem_cons_self q qs), ih]

theorem collectCounts_error :
    ∀ {toks : List String} {tok : String}, tok ∈ toks →
      parse_count tok = .error .valueError →
      collectCounts toks = .error .valueError
  | q :: qs, tok, htok, he => by
    rcases List.mem_cons.mp htok with rfl | hmem
    · simp [collectCounts, he]
    · match hq : parse_count q with
      | .error e => cases e; simp [collectCounts, hq]
      | .ok r => simp [collectCounts, hq, collectCounts_error hmem he]

theorem flatten_map_singleton {α : Type} :
    ∀ l : List α, (l.map fun q => [q]).flatten = l
  | [] => rfl
  | x :: xs => by simp [flatten_map_singleton xs]

theorem map_eq_self {α : Type} {f : α → α} :
    ∀ {l : List α}, (∀ x ∈ l, f x = x) → l.map f = l
  | [], _ => rfl
  | x :: xs, h => by
    simp [h x (List.mem_cons_self x xs),
      map_eq_self (fun y hy => h y (List.mem_cons_of_mem _ hy))]

/-- C3: the worked example of the parser on a spec mixing a multiplier,
a host-scoped name and a plain name, on an arbitrary host. -/
theorem parse_example_expansion (h : String) :
    parse_queues_str h "3*foo,@bar,baz" =
      .ok ["foo", "foo", "foo", "bar_" ++ h, "baz"] := by
  rfl

/-- Witness for `parse_example_expansion` at a concrete hostname. -/
theorem parse_example_expansion_witness :
    parse_queues_str "myhost" "3*foo,@bar,baz" =
      .ok ["foo", "foo", "foo", "bar_" ++ "myhost", "baz"] :=
  parse_example_expansion "myhost"

/-- C4 counterexample: the parser does not fail on the empty spec (a spec
whose single token is empty after trimming); it silently returns a list
holding the empty queue name. -/
theorem parse_empty_spec_no_error :
    parse_queues_str "h" "" = .ok [""] := by decide

/-- C4 (amended): a token whose segment before `*` is not a numeric
literal makes the whole parse fail with the `ValueError` of `int()`;
empty tokens, by contrast, are not rejected. -/
theorem parse_error_on_bad_count (h s tok : String) (l r : List Char)
    (htok : tok ∈ (pySplit s ',').map pyStrip)
    (hsplit : splitOnceChar '*' tok.data = some (l, r))
    (hbad : pyIntOfChars l = none) :
    parse_queues_str h s = .error .valueError ∧
      parse_queues_str h "" = .ok [""] := by
  refine ⟨?_, rfl⟩
  have he : parse_count tok = .error .valueError := by
    simp [parse_count, hsplit, hbad]
  simp [parse_queues_str, collectCounts_error htok he]

/-- Witness for `parse_error_on_bad_count` on the spec `"a,x*foo"`. -/
theorem parse_error_on_bad_count_witness :
    parse_queues_str "h" "a,x*foo" = .error .valueError ∧
      parse_queues_str "h" "" = .ok [""] :=
  parse_error_on_bad_count "h" "a,x*foo" "x*foo" ['x'] ['f', 'o', 'o']
    (by decide) (by decide) (by decide)

/-- C5 counterexample: re-parsing the comma-join of the empty name list
does not return the empty list (it returns the one-element list holding
the empty name), so idempotence fails for the empty list. -/
theorem parse_join_nil_ne_nil :
    parse_queues_str "h" (joinComma ([] : List String)) ≠
      .ok ([] : List String) := by decide

/-- C5 (amended): the parser is idempotent on non-empty lists of plain
queue names: parsing their comma-join returns exactly the list. -/
theorem parse_idempotent (h : String) (l : List String)
    (hne : l ≠ []) (hpl : ∀ q ∈ l, plainName q) :
    parse_queues_str h (joinComma l) = .ok l := by
  have hsplit : pySplit (joinComma l) ',' = l := by
    unfold pySplit joinComma
    rw [splitChar_joinSep (by simpa using hne)
      (fun x hx => by
        rcases List.mem_map.mp hx with ⟨q, hq, rfl⟩
        exact (hpl q hq).2.1)]
    rw [List.map_map]
    exact map_eq_self (fun x _ => rfl)
  have hstrip : l.map pyStrip = l :=
    map_eq_self (fun q hq => (hpl q hq).2.2.2)
  have hcnt : collectCounts l = .ok (l.map fun q => [q]) :=
    collectCounts_singletons (fun q hq => parse_count_plain (hpl q hq).1)
  have hloc : l.map (parse_local h) = l :=
    map_eq_self (fun q hq => parse_local_plain (hpl q hq).2.2.1)
  rw [parse_queues_str, hsplit, hstrip, hcnt]
  simp [flatten_map_singleton, hloc]

/-- Witness for `parse_idempotent` on the plain list `["a", "b2", "c"]`. -/
theorem parse_idempotent_witness :
    parse_queues_str "h" (joinComma ["a", "b2", "c"]) = .ok ["a", "b2", "c"] :=
  parse_idempotent "h" ["a", "b2", "c"] (by decide) (by decide)

/-! ### The Master's state (master.py lines 25-30) -/

/-- A supervised worker process: the queue it is bound to (`Worker(queue,
config)` in `_start_workers` / `_spawn_new_worker`) and its OS pid. -/
structure WorkerH where
  queue_name : String
  pid : Nat
  deriving DecidableEq, Repr

/-- An observable OS side effect of the Master: `os.killpg` on a dead
worker's group (`_kill_pg`), starting a worker process (`Worker.start`),
or `os.kill` with SIGKILL/SIGTERM (`stop_workers`). -/
inductive Event where
  | killPG (pid : Nat)
  | spawn (queue_name : String) (pid : Nat)
  | sendSignal (pid : Nat) (sigkill : Bool)
  deriving DecidableEq, Repr

/-- The Master's mutable attributes: `self.workers`,
`self.shutdown_pending`, `self.override_queues`, plus the configuration
data the Master reads (`config.WORKERS` as an association list from
hostname to queues string, and whether `hasattr(self.config, 'path')`
holds, i.e. the configuration can be reloaded). `nextPid` models the
OS handing out a fresh pid to every newly started process. -/
structure MasterState where
  workers : List WorkerH
  shutdown_pending : Bool
  nextPid : Nat
  override_queues : Option String
  cfgWorkers : List (String × String)
  cfgReloadable : Bool
  deriving DecidableEq, Repr

/-- Number of occurrences of a handle in a worker list (Python's
`list.remove` removes the first occurrence, so multiplicity matters). -/
def occ (w : WorkerH) : List WorkerH → Nat
  | [] => 0
  | u :: us => (if u = w then 1 else 0) + occ w us

/-- Number of workers bound to a given queue name. -/
def countQueue (q : String) : List WorkerH → Nat
  | [] => 0
  | u :: us => (if u.queue_name = q then 1 else 0) + countQueue q us

/-- `list.remove(w)`: drop the first occurrence of `w`. -/
def removeFirst (w : WorkerH) : List WorkerH → List WorkerH
  | [] => []
  | u :: us => if u = w then us else u :: removeFirst w us

theorem occ_append (w : WorkerH) :
    ∀ l₁ l₂ : List WorkerH, occ w (l₁ ++ l₂) = occ w l₁ + occ w l₂
  | [], _ => by simp [occ]
  | u :: us, l₂ => by simp [occ, occ_append w us l₂]; omega

theorem countQueue_append (q : String) :
    ∀ l₁ l₂ : List WorkerH, countQueue q (l₁ ++ l₂) = countQueue q l₁ + countQueue q l₂
  | [], _ => by simp [countQueue]
  | u :: us, l₂ => by simp [countQueue, countQueue_append q us l₂]; omega

theorem occ_eq_zero_iff (w : WorkerH) :
    ∀ {l : List WorkerH}, occ w l = 0 ↔ w ∉ l
  | [] => by simp [occ]
  | u :: us => by
    by_cases hu : u = w
    · subst hu; simp [occ]
    · simp [occ, hu, occ_eq_zero_iff w (l := us), Ne.symm hu]

theorem eq_nil_of_occ_eq_zero :
    ∀ {l : List WorkerH}, (∀ w, occ w l = 0) → l = []
  | [], _ => rfl
  | u :: us, h => by
    have := h u
    simp [occ] at this

theorem removeFirst_occ_self (w : WorkerH) :
    ∀ {l : List WorkerH}, 0 < occ w l → occ w (removeFirst w l) + 1 = occ w l
  | u :: us, h => by
    by_cases hu : u = w
    · subst hu; simp [removeFirst, occ]; omega
    · have hrec : 0 < occ w us := by simpa [occ, hu] using h
      simp [removeFirst, occ, hu, removeFirst_occ_self w hrec]

theorem removeFirst_occ_ne (w u : WorkerH) (hne : u ≠ w) :
    ∀ l : List WorkerH, occ u (removeFirst w l) = occ u l
  | [] => rfl
  | v :: vs => by
    by_cases hv : v = w
    · subst hv
      simp [removeFirst, occ, fun h : v = u => hne (h ▸ rfl)]
      intro h; exact absurd h.symm hne
    · simp [removeFirst, occ, hv, removeFirst_occ_ne w u hne vs]

theorem removeFirst_length (w : WorkerH) :
    ∀ {l : List WorkerH}, 0 < occ w l → (removeFirst w l).length + 1 = l.length
  | u :: us, h => by
    by_cases hu : u = w
    · subst hu; simp [removeFirst]
    · have hrec : 0 < occ w us := by simpa [occ, hu] using h
      simp [removeFirst, hu, ← removeFirst_length w hrec]

theorem removeFirst_countQueue (w : WorkerH) (q : String) :
    ∀ {l : List WorkerH}, 0 < occ w l →
      countQueue q (removeFirst w l) + (if w.queue_name = q then 1 else 0) =
        countQueue q l
  | u :: us, h => by
    by_cases hu : u = w
    · subst hu; simp [removeFirst, countQueue]; omega
    · have hrec : 0 < occ w us := by simpa [occ, hu] using h
      simp [removeFirst, countQueue, hu, ← removeFirst_countQueue w q hrec]
      omega

theorem mem_of_mem_removeFirst (w u : WorkerH) :
    ∀ {l : List WorkerH}, u ∈ removeFirst w l → u ∈ l
  | v :: vs, h => by
    by_cases hv : v = w
    · subst hv; simp [removeFirst] at h; simp [h]
    · simp only [removeFirst, if_neg hv, List.mem_cons] at h
      rcases h with rfl | h
      · simp
      · simp [mem_of_mem_removeFirst w u h]

theorem occ_pos_of_mem (w : WorkerH) :
    ∀ {l : List WorkerH}, w ∈ l → 0 < occ w l := by
  intro l h
  by_contra hz
  exact (occ_eq_zero_iff w).mp (Nat.eq_zero_of_not_pos hz) h

/-! ### One pass of `Master._wait_for_workers` (master.py lines 78-100) -/

/-- Result of one pass of the `for worker in list(self.workers)` body:
the mutated `self.workers`, the pid counter after any respawns, the
`any_alive` flag, and the OS side effects in order. -/
structure PassResult where
  workers : List WorkerH
  nextPid : Nat
  anyAlive : Bool
  trace : List Event
  deriving DecidableEq, Repr

/-- The loop body of `_wait_for_workers` over the snapshot
`list(self.workers)` (first list argument), mutating `self.workers`
(second argument). An alive worker only sets `any_alive`; a dead worker
with no shutdown pending is process-group-killed (`_kill_pg`) and then
replaced (`_spawn_new_worker`: append the fresh handle, remove the dead
one); a dead worker during shutdown is simply removed. -/
def waitLoopPass (sp : Bool) (alive : WorkerH → Bool) :
    List WorkerH → List WorkerH → Nat → PassResult
  | [], ws, np => ⟨ws, np, false, []⟩
  | w :: rest, ws, np =>
    if alive w then
      let r := waitLoopPass sp alive rest ws np
      { r with anyAlive := true }
    else if !sp then
      let nw : WorkerH := ⟨w.queue_name, np⟩
      let r := waitLoopPass sp alive rest (removeFirst w (ws ++ [nw])) (np + 1)
      { r with
          anyAlive := true
          trace := .killPG w.pid :: .spawn w.queue_name np :: r.trace }
    else
      waitLoopPass sp alive rest (removeFirst w ws) np

/-- One full tick of the monitor loop on the Master's state. -/
def tick (alive : WorkerH → Bool) (st : MasterState) :
    MasterState × Bool × List Event :=
  let r := waitLoopPass st.shutdown_pending alive st.workers st.workers st.nextPid
  ({ st with workers := r.workers, nextPid := r.nextPid }, r.anyAlive, r.trace)

/-- `_wait_for_workers` as a fuelled loop: run passes (with a
per-iteration liveness observation) until a pass reports no worker
alive and none respawned. -/
def waitForWorkers (aliveSeq : Nat → WorkerH → Bool) :
    Nat → MasterState → Option MasterState
  | 0, _ => none
  | fuel + 1, st =>
    let r := tick (aliveSeq 0) st
    if r.2.1 then waitForWorkers (fun n => aliveSeq (n + 1)) fuel r.1
    else some r.1

/-- The crash-recovery side-effect pattern: every dead worker of the
snapshot, in order, is first process-group-killed and then respawned on
its own queue with the next fresh pid. Stated from the specification to
characterise the trace of a no-shutdown pass. -/
def killThenSpawnTrace (alive : WorkerH → Bool) : List WorkerH → Nat → List Event
  | [], _ => []
  | w :: rest, np =>
    if alive w then killThenSpawnTrace alive rest np
    else .killPG w.pid :: .spawn w.queue_name np :: killThenSpawnTrace alive rest (np + 1)

/-- Number of dead handles in a snapshot (with multiplicity). -/
def deadCount (alive : WorkerH → Bool) : List WorkerH → Nat
  | [] => 0
  | w :: rest => (if alive w then 0 else 1) + deadCount alive rest

/-! ### Monitor-loop pass lemmas -/

theorem waitLoopPass_cons_alive (sp : Bool) (alive : WorkerH → Bool)
    (w : WorkerH) (rest ws : List WorkerH) (np : Nat) (h : alive w = true) :
    waitLoopPass sp alive (w :: rest) ws np =
      { waitLoopPass sp alive rest ws np with anyAlive := true } := by
  simp [waitLoopPass, h]

theorem waitLoopPass_cons_dead_run (alive : WorkerH → Bool)
    (w : WorkerH) (rest ws : List WorkerH) (np : Nat) (h : alive w = false) :
    waitLoopPass false alive (w :: rest) ws np =
      { waitLoopPass false alive rest
          (removeFirst w (ws ++ [⟨w.queue_name, np⟩])) (np + 1) with
        anyAlive := true
        trace := .killPG w.pid :: .spawn w.queue_name np ::
          (waitLoopPass false alive rest
            (removeFirst w (ws ++ [⟨w.queue_name, np⟩])) (np + 1)).trace } := by
  simp [waitLoopPass, h]

theorem waitLoopPass_cons_dead_shutdown (alive : WorkerH → Bool)
    (w : WorkerH) (rest ws : List WorkerH) (np : Nat) (h : alive w = false) :
    waitLoopPass true alive (w :: rest) ws np =
      waitLoopPass true alive rest (removeFirst w ws) np := by
  simp [waitLoopPass, h]

/-- Behaviour of one monitor pass while no shutdown is pending: pool
length and per-queue counts are preserved, every occurrence of a dead
snapshot handle is removed, and the side effects are exactly
kill-process-group followed by respawn for each dead handle in order. -/
theorem occ_cons_le (u w : WorkerH) (rest : List WorkerH) :
    occ u rest ≤ occ u (w :: rest) := by
  by_cases h : w = u <;> simp [occ, h]

theorem waitLoopPass_noShutdown (alive : WorkerH → Bool) :
    ∀ (snap ws : List WorkerH) (np : Nat),
      (∀ u, occ u snap ≤ occ u ws) →
      (∀ u ∈ ws, u.pid < np) →
      (∀ u ∈ snap, u.pid < np) →
      (waitLoopPass false alive snap ws np).workers.length = ws.length
      ∧ (∀ q, countQueue q (waitLoopPass false alive snap ws np).workers =
          countQueue q ws)
      ∧ (∀ u, u.pid < np →
          occ u (waitLoopPass false alive snap ws np).workers =
            occ u ws - (if alive u then 0 else occ u snap))
      ∧ (waitLoopPass false alive snap ws np).trace =
          killThenSpawnTrace alive snap np := by
  intro snap
  induction snap with
  | nil =>
    intro ws np _ _ _
    refine ⟨rfl, fun q => rfl, fun u _ => ?_, rfl⟩
    by_cases hu : alive u <;> simp [waitLoopPass, occ, hu]
  | cons w rest ih =>
    intro ws np hocc hws hsnap
    by_cases halive : alive w = true
    · -- alive branch: nothing changes except the flag
      have hrec := ih ws np
        (fun u => le_trans (occ_cons_le u w rest) (hocc u)) hws
        (fun u hu => hsnap u (List.mem_cons_of_mem _ hu))
      rw [waitLoopPass_cons_alive _ _ _ _ _ _ halive]
      refine ⟨hrec.1, hrec.2.1, fun u hu => ?_, ?_⟩
      · rw [hrec.2.2.1 u hu]
        by_cases hau : alive u = true
        · simp [hau]
        · have hne : ¬(w = u) := fun h => hau (h ▸ halive)
          simp [hau, occ, hne]
      · rw [hrec.2.2.2]
        simp [killThenSpawnTrace, halive]
    · -- dead branch: kill the group, respawn on the same queue
      have halive' : alive w = false := Bool.eq_false_iff.mpr halive
      have hwpid : w.pid < np := hsnap w (List.mem_cons_self w rest)
      have hwnw : w ≠ (⟨w.queue_name, np⟩ : WorkerH) := by
        intro h
        have : w.pid = np := congrArg WorkerH.pid h
        omega
      have hoccw : 0 < occ w ws := by
        have := hocc w
        simp [occ] at this
        omega
      have hoccw' : 0 < occ w (ws ++ [⟨w.queue_name, np⟩]) := by
        rw [occ_append]; omega
      -- occurrence bookkeeping in the mutated list
      have hself : occ w (removeFirst w (ws ++ [⟨w.queue_name, np⟩])) + 1 =
          occ w ws := by
        have h1 := removeFirst_occ_self w hoccw'
        rw [occ_append] at h1
        simpa [occ, Ne.symm hwnw] using h1
      have hother : ∀ u, u ≠ w → u ≠ (⟨w.queue_name, np⟩ : WorkerH) →
          occ u (removeFirst w (ws ++ [⟨w.queue_name, np⟩])) = occ u ws := by
        intro u hu hnu
        rw [removeFirst_occ_ne w u hu, occ_append]
        have hnu' : ¬((⟨w.queue_name, np⟩ : WorkerH) = u) := fun h => hnu h.symm
        simp [occ, hnu']
      have hother' : ∀ u, u ≠ w →
          occ u ws ≤ occ u (removeFirst w (ws ++ [⟨w.queue_name, np⟩])) := by
        intro u hu
        rw [removeFirst_occ_ne w u hu, occ_append]
        omega
      have hws1 : ∀ u ∈ removeFirst w (ws ++ [⟨w.queue_name, np⟩]), u.pid < np + 1 := by
        intro u hu
        rcases List.mem_append.mp (mem_of_mem_removeFirst _ _ hu) with h | h
        · exact Nat.lt_succ_of_lt (hws u h)
        · rw [List.mem_singleton] at h
          subst h
          simp
      have hrec := ih (removeFirst w (ws ++ [⟨w.queue_name, np⟩])) (np + 1)
        (by
          intro u
          by_cases hu : u = w
          · subst hu
            have h2 := hocc u
            simp [occ] at h2
            omega
          · exact le_trans (le_trans (occ_cons_le u w rest) (hocc u)) (hother' u hu))
        hws1
        (fun u hu => Nat.lt_succ_of_lt (hsnap u (List.mem_cons_of_mem _ hu)))
      rw [waitLoopPass_cons_dead_run _ _ _ _ _ halive']
      refine ⟨?_, fun q => ?_, fun u hu => ?_, ?_⟩
      · show (waitLoopPass false alive rest _ _).workers.length = ws.length
        rw [hrec.1]
        have h1 := removeFirst_length w hoccw'
        simp at h1
        omega
      · show countQueue q (waitLoopPass false alive rest _ _).workers = countQueue q ws
        rw [hrec.2.1 q]
        have h1 := removeFirst_countQueue w q hoccw'
        rw [countQueue_append] at h1
        simp only [countQueue] at h1
        omega
      · show occ u (waitLoopPass false alive rest _ _).workers =
          occ u ws - (if alive u then 0 else occ u (w :: rest))
        have hunw : u ≠ (⟨w.queue_name, np⟩ : WorkerH) := by
          intro h
          have : u.pid = np := congrArg WorkerH.pid h
          omega
        rw [hrec.2.2.1 u (Nat.lt_succ_of_lt hu)]
        by_cases hau : alive u = true
        · have hne : u ≠ w := by
            intro he
            rw [he, halive'] at hau
            exact Bool.false_ne_true hau
          simp [hau, hother u hne hunw]
        · have hau' : alive u = false := Bool.eq_false_iff.mpr hau
          rw [hau']
          simp only [if_neg Bool.false_ne_true]
          by_cases hu' : u = w
          · subst hu'
            have h3 : occ u (u :: rest) = occ u rest + 1 := by simp [occ]; omega
            rw [h3]
            omega
          · have hwu : ¬(w = u) := fun he => hu' he.symm
            have h3 : occ u (w :: rest) = occ u rest := by simp [occ, hwu]
            rw [h3, hother u hu' hunw]
      · show Event.killPG w.pid :: Event.spawn w.queue_name np ::
            (waitLoopPass false alive rest _ _).trace =
          killThenSpawnTrace alive (w :: rest) np
        rw [hrec.2.2.2]
        simp [killThenSpawnTrace, halive']

/-- Behaviour of one monitor pass while shutdown is pending: dead handles
are retired without any side effect (no kill, no spawn), the pid counter
does not move, and `any_alive` is exactly "some snapshot handle is
alive". -/
theorem waitLoopPass_shutdown (alive : WorkerH → Bool) :
    ∀ (snap ws : List WorkerH) (np : Nat),
      (∀ u, occ u snap ≤ occ u ws) →
      (waitLoopPass true alive snap ws np).nextPid = np
      ∧ (waitLoopPass true alive snap ws np).trace = []
      ∧ (waitLoopPass true alive snap ws np).anyAlive = snap.any alive
      ∧ (waitLoopPass true alive snap ws np).workers.length + deadCount alive snap =
          ws.length
      ∧ (∀ u, occ u (waitLoopPass true alive snap ws np).workers =
          occ u ws - (if alive u then 0 else occ u snap)) := by
  intro snap
  induction snap with
  | nil =>
    intro ws np _
    refine ⟨rfl, rfl, rfl, by simp [waitLoopPass, deadCount], fun u => ?_⟩
    by_cases hu : alive u = true <;> simp [waitLoopPass, occ, hu]
  | cons w rest ih =>
    intro ws np hocc
    by_cases halive : alive w = true
    · have hrec := ih ws np (fun u => le_trans (occ_cons_le u w rest) (hocc u))
      rw [waitLoopPass_cons_alive _ _ _ _ _ _ halive]
      refine ⟨hrec.1, hrec.2.1, by simp [halive], ?_, fun u => ?_⟩
      · have h4 := hrec.2.2.2.1
        have h5 : deadCount alive (w :: rest) = deadCount alive rest := by
          simp [deadCount, halive]
        rw [h5]
        exact h4
      · rw [hrec.2.2.2.2 u]
        by_cases hau : alive u = true
        · simp [hau]
        · have hne : ¬(w = u) := fun h => hau (h ▸ halive)
          simp [hau, occ, hne]
    · have halive' : alive w = false := Bool.eq_false_iff.mpr halive
      have hoccw : 0 < occ w ws := by
        have := hocc w
        simp [occ] at this
        omega
      have hrec := ih (removeFirst w ws) np
        (by
          intro u
          by_cases hu : u = w
          · subst hu
            have h2 := hocc u
            simp [occ] at h2
            have h1 := removeFirst_occ_self u hoccw
            omega
          · rw [removeFirst_occ_ne w u hu]
            exact le_trans (occ_cons_le u w rest) (hocc u))
      rw [waitLoopPass_cons_dead_shutdown _ _ _ _ _ halive']
      refine ⟨hrec.1, hrec.2.1, by rw [hrec.2.2.1]; simp [halive'], ?_, fun u => ?_⟩
      · have h4 := hrec.2.2.2.1
        have h5 := removeFirst_length w hoccw
        have h6 : deadCount alive (w :: rest) = 1 + deadCount alive rest := by
          simp [deadCount, halive']
        rw [h6]
        omega
      · rw [hrec.2.2.2.2 u]
        by_cases hau : alive u = true
        · have hne : u ≠ w := by
            intro he
            rw [he, halive'] at hau
            exact Bool.false_ne_true hau
          rw [removeFirst_occ_ne w u hne]
          simp [hau]
        · have hau' : alive u = false := Bool.eq_false_iff.mpr hau
          rw [hau']
          simp only [if_neg Bool.false_ne_true]
          by_cases hu' : u = w
          · subst hu'
            have h3 : occ u (u :: rest) = occ u rest + 1 := by simp [occ]; omega
            have h1 := removeFirst_occ_self u hoccw
            rw [h3]
            omega
          · have hwu : ¬(w = u) := fun he => hu' he.symm
            have h3 : occ u (w :: rest) = occ u rest := by simp [occ, hwu]
            rw [h3, removeFirst_occ_ne w u hu']

/-- C1: while `shutdown_pending` is false, a worker observed dead by one
monitor tick is process-group-killed and then replaced by exactly one new
worker on the same queue name, its handle removed, so per-queue worker
counts and the total pool size are invariant across crashes. -/
theorem tick_crash_recovery (st : MasterState) (alive : WorkerH → Bool)
    (q : String) (w : WorkerH)
    (hne : st.workers ≠ [])
    (hsp : st.shutdown_pending = false)
    (hfresh : ∀ u ∈ st.workers, u.pid < st.nextPid)
    (hw : w ∈ st.workers) (hdead : alive w = false) :
    countQueue q (tick alive st).1.workers = countQueue q st.workers
    ∧ (tick alive st).1.workers.length = st.workers.length
    ∧ w ∉ (tick alive st).1.workers
    ∧ (tick alive st).2.2 = killThenSpawnTrace alive st.workers st.nextPid := by
  have main := waitLoopPass_noShutdown alive st.workers st.workers st.nextPid
    (fun u => le_refl _) hfresh hfresh
  have ht1 : (tick alive st).1.workers =
      (waitLoopPass false alive st.workers st.workers st.nextPid).workers := by
    simp [tick, hsp]
  have ht2 : (tick alive st).2.2 =
      (waitLoopPass false alive st.workers st.workers st.nextPid).trace := by
    simp [tick, hsp]
  rw [ht1, ht2]
  refine ⟨main.2.1 q, main.1, ?_, main.2.2.2⟩
  have hocc0 := main.2.2.1 w (hfresh w hw)
  rw [hdead] at hocc0
  simp only [if_neg Bool.false_ne_true] at hocc0
  rw [Nat.sub_self] at hocc0
  intro hmem
  have := occ_pos_of_mem w hmem
  omega

/-- Witness for `tick_crash_recovery`: two workers, the one on queue
`"qb"` dead; the tick restores one worker per queue. -/
theorem tick_crash_recovery_witness :
    countQueue "qb" (tick (fun u => decide (u.pid = 1))
        (MasterState.mk [WorkerH.mk "qa" 1, WorkerH.mk "qb" 2] false 3 none [] false)).1.workers =
      countQueue "qb"
        (MasterState.mk [WorkerH.mk "qa" 1, WorkerH.mk "qb" 2] false 3 none [] false).workers
    ∧ (tick (fun u => decide (u.pid = 1))
        (MasterState.mk [WorkerH.mk "qa" 1, WorkerH.mk "qb" 2] false 3 none [] false)).1.workers.length =
      (MasterState.mk [WorkerH.mk "qa" 1, WorkerH.mk "qb" 2] false 3 none [] false).workers.length
    ∧ WorkerH.mk "qb" 2 ∉ (tick (fun u => decide (u.pid = 1))
        (MasterState.mk [WorkerH.mk "qa" 1, WorkerH.mk "qb" 2] false 3 none [] false)).1.workers
    ∧ (tick (fun u => decide (u.pid = 1))
        (MasterState.mk [WorkerH.mk "qa" 1, WorkerH.mk "qb" 2] false 3 none [] false)).2.2 =
      killThenSpawnTrace (fun u => decide (u.pid = 1))
        (MasterState.mk [WorkerH.mk "qa" 1, WorkerH.mk "qb" 2] false 3 none [] false).workers
        (MasterState.mk [WorkerH.mk "qa" 1, WorkerH.mk "qb" 2] false 3 none [] false).nextPid :=
  tick_crash_recovery
    (MasterState.mk [WorkerH.mk "qa" 1, WorkerH.mk "qb" 2] false 3 none [] false)
    (fun u => decide (u.pid = 1)) "qb" (WorkerH.mk "qb" 2)
    (by decide) rfl (by decide) (by decide) (by decide)

/-- C6: once `shutdown_pending` is true, a dead worker is retired and
never replaced (no kill/spawn side effects at all), the pool size is
non-increasing, and once every worker is observed dead the monitor loop
terminates with an empty pool. -/
theorem tick_shutdown_drain (st : MasterState) (alive : WorkerH → Bool)
    (aliveSeq : Nat → WorkerH → Bool) (w : WorkerH)
    (hsp : st.shutdown_pending = true) :
    (tick alive st).1.workers.length ≤ st.workers.length
    ∧ (w ∈ st.workers → alive w = false → w ∉ (tick alive st).1.workers)
    ∧ (tick alive st).2.2 = []
    ∧ ((∀ u ∈ st.workers, aliveSeq 0 u = false) →
        waitForWorkers aliveSeq 1 st = some { st with workers := [] }) := by
  have main := waitLoopPass_shutdown alive st.workers st.workers st.nextPid
    (fun u => le_refl _)
  have ht1 : (tick alive st).1.workers =
      (waitLoopPass true alive st.workers st.workers st.nextPid).workers := by
    simp [tick, hsp]
  have ht2 : (tick alive st).2.2 =
      (waitLoopPass true alive st.workers st.workers st.nextPid).trace := by
    simp [tick, hsp]
  refine ⟨?_, ?_, ?_, ?_⟩
  · rw [ht1]
    have := main.2.2.2.1
    omega
  · intro hw hdead
    rw [ht1]
    have hocc0 := main.2.2.2.2 w
    rw [hdead] at hocc0
    simp only [if_neg Bool.false_ne_true] at hocc0
    rw [Nat.sub_self] at hocc0
    intro hmem
    have := occ_pos_of_mem w hmem
    omega
  · rw [ht2]
    exact main.2.1
  · intro hdeadall
    have main0 := waitLoopPass_shutdown (aliveSeq 0) st.workers st.workers st.nextPid
      (fun u => le_refl _)
    have hany : (waitLoopPass true (aliveSeq 0) st.workers st.workers st.nextPid).anyAlive =
        false := by
      rw [main0.2.2.1]
      simp only [List.any_eq_false]
      intro u hu
      simp [hdeadall u hu]
    have hnil : (waitLoopPass true (aliveSeq 0) st.workers st.workers st.nextPid).workers =
        [] := by
      apply eq_nil_of_occ_eq_zero
      intro u
      rw [main0.2.2.2.2 u]
      by_cases hau : aliveSeq 0 u = true
      · have hnu : u ∉ st.workers := fun hm => by
          rw [hdeadall u hm] at hau
          exact Bool.false_ne_true hau
        rw [hau]
        simp [(occ_eq_zero_iff u).mpr hnu]
      · have hau' : aliveSeq 0 u = false := Bool.eq_false_iff.mpr hau
        rw [hau']
        simp
    have htick1 : (tick (aliveSeq 0) st).2.1 = false := by
      simp [tick, hsp, hany]
    have htickst : (tick (aliveSeq 0) st).1 =
        { st with workers := [], nextPid := st.nextPid } := by
      simp [tick, hsp, hnil, main0.1]
    simp [waitForWorkers, htick1, htickst]


/-- Witness for `tick_shutdown_drain`: one worker, already dead, with
shutdown pending; the tick retires it and the loop terminates. -/
theorem tick_shutdown_drain_witness :
    (tick (fun _ => false)
        (MasterState.mk [WorkerH.mk "qa" 7] true 9 none [] false)).1.workers.length ≤
      (MasterState.mk [WorkerH.mk "qa" 7] true 9 none [] false).workers.length
    ∧ WorkerH.mk "qa" 7 ∉ (tick (fun _ => false)
        (MasterState.mk [WorkerH.mk "qa" 7] true 9 none [] false)).1.workers
    ∧ (tick (fun _ => false)
        (MasterState.mk [WorkerH.mk "qa" 7] true 9 none [] false)).2.2 = []
    ∧ waitForWorkers (fun _ _ => false) 1
          (MasterState.mk [WorkerH.mk "qa" 7] true 9 none [] false) =
        some (MasterState.mk [] true 9 none [] false) :=
  have h := tick_shutdown_drain
    (MasterState.mk [WorkerH.mk "qa" 7] true 9 none [] false)
    (fun _ => false) (fun _ _ => false) (WorkerH.mk "qa" 7) rfl
  ⟨h.1, h.2.1 (by decide) rfl, h.2.2.1, h.2.2.2 (by decide)⟩

/-! ### Signalling workers (master.py lines 70-76, 111-118) -/

/-- The `os.kill` loop inside `stop_workers`: signal each worker in
order. `osKill pid sigkill` is the OS outcome of `os.kill` (`none` =
delivered, `some errno` = `OSError`, which `stop_workers` does not catch,
so it aborts the loop and propagates). -/
def sendSignals (osKill : Nat → Bool → Option Nat) (kill : Bool) :
    List WorkerH → List Event × Option Nat
  | [] => ([], none)
  | w :: rest =>
    match osKill w.pid kill with
    | some e => ([], some e)
    | none =>
      let r := sendSignals osKill kill rest
      (.sendSignal w.pid kill :: r.1, r.2)

/-- `Master.stop_workers(workers=None, kill=False)` (lines 70-76): the
target defaults to `self.workers`; each target gets SIGKILL or SIGTERM.
No attribute of the Master is assigned, so the state is returned as is;
the signals sent and any propagating `OSError` make up the rest. -/
def stop_workers (osKill : Nat → Bool → Option Nat) (st : MasterState)
    (workersArg : Option (List WorkerH)) (kill : Bool) :
    MasterState × List Event × Option Nat :=
  let targets :=
    match workersArg with
    | none => st.workers
    | some ws => ws
  let r := sendSignals osKill kill targets
  (st, r.1, r.2)

/-- `Master._kill_pg(worker)` (lines 111-118): `os.killpg(pid, SIGKILL)`
wrapped in `except OSError: if e.errno != 3: raise`. The argument is the
OS outcome of the `killpg` call (`none` = delivered, `some errno` =
`OSError` with that errno). -/
def kill_pg (osOutcome : Option Nat) : Except Nat Unit :=
  match osOutcome with
  | none => .ok ()
  | some errno => if errno ≠ 3 then .error errno else .ok ()

/-! ### Signal handlers (master.py lines 126-142) -/

/-- `Master._handle_sigterm` (lines 126-129): warm shutdown — set
`shutdown_pending` and send SIGTERM to all current workers. -/
def handle_sigterm (osKill : Nat → Bool → Option Nat) (st : MasterState) :
    MasterState × List Event × Option Nat :=
  stop_workers osKill { st with shutdown_pending := true } none false

/-- `Master._handle_sigquit` (lines 131-134): cold shutdown — set
`shutdown_pending` and SIGKILL all current workers. -/
def handle_sigquit (osKill : Nat → Bool → Option Nat) (st : MasterState) :
    MasterState × List Event × Option Nat :=
  stop_workers osKill { st with shutdown_pending := true } none true

/-- `Master._handle_sigint` (lines 136-142): on an interactive terminal
with no shutdown pending yet, behave as SIGTERM (warm); otherwise as
SIGQUIT (cold). `isatty` stands for `sys.stdin.isatty()`. -/
def handle_sigint (isatty : Bool) (osKill : Nat → Bool → Option Nat)
    (st : MasterState) : MasterState × List Event × Option Nat :=
  if isatty && !st.shutdown_pending then handle_sigterm osKill st
  else handle_sigquit osKill st

/-! ### Starting workers and reloading (master.py lines 47-68, 148-155) -/

/-- Python truthiness of `self.override_queues` (`if self.override_queues:`
— `None` and the empty string are both falsy). -/
def pyTruthy : Option String → Bool
  | none => false
  | some s => !s.isEmpty

/-- `Master._get_queues` (lines 57-68): the override string if truthy,
else `config.WORKERS[hostname]`, else the default queue `"kuyruk"` on
`KeyError`. -/
def get_queues (hostname : String) (st : MasterState) : String :=
  if pyTruthy st.override_queues then st.override_queues.getD ""
  else
    match st.cfgWorkers.lookup hostname with
    | some s => s
    | none => "kuyruk"

/-- The spawn loop of `_start_workers` (lines 52-55): one `Worker(queue,
config)` started and appended per parsed queue name, with fresh pids. -/
def spawnWorkers : List String → List WorkerH → Nat →
    List WorkerH × Nat × List Event
  | [], ws, np => (ws, np, [])
  | q :: qs, ws, np =>
    let r := spawnWorkers qs (ws ++ [⟨q, np⟩]) (np + 1)
    (r.1, r.2.1, .spawn q np :: r.2.2)

/-- `Master._start_workers` (lines 47-55): resolve the queues string,
parse it, then spawn one worker per name. A parse failure propagates. -/
def start_workers (hostname : String) (st : MasterState) :
    Except ParseError (MasterState × List Event) :=
  match parse_queues_str hostname (get_queues hostname st) with
  | .error e => .error e
  | .ok qs =>
    let r := spawnWorkers qs st.workers st.nextPid
    .ok ({ st with workers := r.1, nextPid := r.2.1 }, r.2.2)

/-- `Master.reload` (lines 148-155): remember the old worker list; if the
configuration has a backing `path` (is reloadable), reload it (its
`WORKERS` mapping becomes `newCfgWorkers`), reset `self.workers` to `[]`
and start a fresh set; finally send SIGTERM to the old workers. With a
non-reloadable configuration only the final `stop_workers(old)` runs. -/
def reload (hostname : String) (osKill : Nat → Bool → Option Nat)
    (newCfgWorkers : List (String × String)) (st : MasterState) :
    Except ParseError (MasterState × List Event × Option Nat) :=
  let old := st.workers
  if st.cfgReloadable then
    match start_workers hostname
        { st with cfgWorkers := newCfgWorkers, workers := [] } with
    | .error e => .error e
    | .ok (st1, evs) =>
      let r := stop_workers osKill st1 (some old) false
      .ok (r.1, evs ++ r.2.1, r.2.2)
  else
    let r := stop_workers osKill st (some old) false
    .ok (r.1, r.2.1, r.2.2)

/-! ### The manager-link dispatch step (master.py lines 157-184) -/

/-- Python-level exceptions relevant to the dispatch step of
`_send_status`: `socket.error` (the only class the handlers catch) and
the `AttributeError` of a failing `getattr`. -/
inductive PyError where
  | socketError
  | attributeError
  deriving DecidableEq, Repr

/-- The attribute names that class `Master` itself defines (master.py
lines 25-188): its methods and properties, and the instance attributes
assigned in `__init__` and `run`. On a running Master every one of these
names certainly resolves. The full attribute set of the instance is
strictly larger — names inherited from `multiprocessing.Process`
(`start`, `terminate`, `_bootstrap`, `_args`, ...) and the object
protocol (`__init__`, `__dict__`, ...) also resolve — so this list is
only ever used positively (membership means the name resolves and is
reachable by a remote command); it is never treated as the complete set.
The complete resolution behaviour is an oracle parameter below. -/
def masterClassAttributeNames : List String :=
  ["__init__", "config", "workers", "shutdown_pending", "override_queues",
   "started", "run", "_start_workers", "_get_queues", "stop_workers",
   "_wait_for_workers", "_spawn_new_worker", "_kill_pg",
   "_register_signals", "_handle_sigterm", "_handle_sigquit",
   "_handle_sigint", "_handle_sighup", "reload", "_send_status", "uptime"]

/-- `f = getattr(self, f)` (line 175), with the instance's complete
attribute-resolution behaviour supplied as an oracle: `resolves n = true`
iff `getattr(self, n)` succeeds (instance dict, class `Master`,
`multiprocessing.Process`, `object`). A name that does not resolve raises
`AttributeError`; a name that does is returned and then invoked with the
supplied arguments — the code applies no allow-list in between. -/
def dispatchName (resolves : String → Bool) (f : String) : Except PyError Unit :=
  if resolves f then .ok () else .error .attributeError

/-- Lines 169-176: `receive_message` failing with `socket.error` is
swallowed by the inner `except socket.error: pass` (a would-block read is
not an error); a received command name is dispatched via `getattr`. -/
def receiveStep (resolves : String → Bool) (received : Except PyError String) :
    Except PyError Unit :=
  match received with
  | .error .socketError => .ok ()
  | .error e => .error e
  | .ok f => dispatchName resolves f

/-- Whether the `_send_status` thread survives the iteration: the outer
`except socket.error` (line 179) catches only socket errors, so an
`AttributeError` escaping the dispatch propagates out of `_send_status`
and kills the manager-link thread. -/
def linkSurvives (resolves : String → Bool) (received : Except PyError String) :
    Bool :=
  match receiveStep resolves received with
  | .ok _ => true
  | .error .socketError => true
  | .error .attributeError => false

/-- One sound instance of the resolution oracle: exactly the names class
`Master` itself defines. The real instance resolves these and more; it is
used below only at names on which it agrees with the real `getattr`:
names in the list (which resolve), and names such as `"does_not_exist"`
or `"frobnicate"` that occur nowhere in the instance dict, class
`Master`, `multiprocessing.Process` or `object` (which do not). -/
def classOnlyResolver (n : String) : Bool :=
  masterClassAttributeNames.contains n

/-! ### Claim theorems: signalling, handlers, reload, dispatch -/

/-- C7: `_kill_pg` treats a successful `killpg` and the "no such
process" error (errno 3) as success, and propagates every other
OS-level error to the caller. -/
theorem kill_pg_error_policy (e : Nat) (he : e ≠ 3) :
    kill_pg none = .ok () ∧ kill_pg (some 3) = .ok ()
    ∧ kill_pg (some e) = .error e := by
  refine ⟨rfl, rfl, ?_⟩
  simp [kill_pg, he]

/-- Witness for `kill_pg_error_policy` at errno 13 (permission denied). -/
theorem kill_pg_error_policy_witness :
    kill_pg none = .ok () ∧ kill_pg (some 3) = .ok ()
    ∧ kill_pg (some 13) = .error 13 :=
  kill_pg_error_policy 13 (by decide)

theorem sendSignals_of_ok (osKill : Nat → Bool → Option Nat)
    (hok : ∀ p k, osKill p k = none) (kill : Bool) :
    ∀ l : List WorkerH,
      sendSignals osKill kill l =
        (l.map (fun w => Event.sendSignal w.pid kill), none)
  | [] => rfl
  | w :: rest => by
    simp [sendSignals, hok w.pid kill, sendSignals_of_ok osKill hok kill rest]

/-- C10: `stop_workers` only sends signals. Whatever the targets, the
kill flag and the OS outcomes (even a propagating `OSError` part-way
through), the Master's state — worker set, shutdown flag and all — is
returned unchanged; with successful delivery the effects are exactly one
signal per target, in order. -/
theorem stop_workers_frame (osKill : Nat → Bool → Option Nat)
    (st : MasterState) (workersArg : Option (List WorkerH)) (kill : Bool) :
    (stop_workers osKill st workersArg kill).1 = st
    ∧ (stop_workers (fun _ _ => none) st workersArg kill).2.1 =
        (match workersArg with
          | none => st.workers
          | some ws => ws).map (fun (w : WorkerH) => Event.sendSignal w.pid kill)
    ∧ (stop_workers (fun _ _ => none) st workersArg kill).2.2 = none := by
  refine ⟨rfl, ?_, ?_⟩ <;>
    simp [stop_workers, sendSignals_of_ok (fun _ _ => none) (fun _ _ => rfl) kill]

/-- C8: on SIGINT, an interactive terminal with no shutdown pending gets
the warm-shutdown transition (`_handle_sigterm`: flag set, SIGTERM to all
workers); a pending shutdown or a non-interactive stdin gets the
cold-shutdown transition (`_handle_sigquit`: flag set, SIGKILL to all
workers); hence a second interactive SIGINT escalates warm to cold. -/
theorem sigint_transitions (osKill : Nat → Bool → Option Nat)
    (st : MasterState) (tty : Bool) :
    (tty = true → st.shutdown_pending = false →
      handle_sigint tty osKill st = handle_sigterm osKill st)
    ∧ (st.shutdown_pending = true →
      handle_sigint tty osKill st = handle_sigquit osKill st)
    ∧ (tty = false → handle_sigint tty osKill st = handle_sigquit osKill st)
    ∧ (handle_sigterm osKill st).1 = { st with shutdown_pending := true }
    ∧ (handle_sigterm osKill st).2.1 = (sendSignals osKill false st.workers).1
    ∧ (handle_sigquit osKill st).1 = { st with shutdown_pending := true }
    ∧ (handle_sigquit osKill st).2.1 = (sendSignals osKill true st.workers).1
    ∧ handle_sigint true osKill (handle_sigint true osKill st).1 =
        handle_sigquit osKill (handle_sigint true osKill st).1 := by
  refine ⟨?_, ?_, ?_, rfl, rfl, rfl, rfl, ?_⟩
  · intro h1 h2
    simp [handle_sigint, h1, h2]
  · intro h1
    simp [handle_sigint, h1]
  · intro h1
    simp [handle_sigint, h1]
  · have hsp : (handle_sigint true osKill st).1.shutdown_pending = true := by
      by_cases h : st.shutdown_pending = true <;>
        simp [handle_sigint, handle_sigterm, handle_sigquit, stop_workers, h]
    revert hsp
    generalize (handle_sigint true osKill st).1 = x
    intro hsp
    simp [handle_sigint, hsp]

/-- Witness for `sigint_transitions`: a one-worker Master; the first
interactive SIGINT is warm, the second escalates to cold. -/
theorem sigint_transitions_witness :
    handle_sigint true (fun _ _ => none)
        (MasterState.mk [WorkerH.mk "q" 4] false 5 none [] false) =
      handle_sigterm (fun _ _ => none)
        (MasterState.mk [WorkerH.mk "q" 4] false 5 none [] false)
    ∧ handle_sigint false (fun _ _ => none)
        (MasterState.mk [WorkerH.mk "q" 4] false 5 none [] false) =
      handle_sigquit (fun _ _ => none)
        (MasterState.mk [WorkerH.mk "q" 4] false 5 none [] false)
    ∧ handle_sigint true (fun _ _ => none)
        (handle_sigint true (fun _ _ => none)
          (MasterState.mk [WorkerH.mk "q" 4] false 5 none [] false)).1 =
      handle_sigquit (fun _ _ => none)
        (handle_sigint true (fun _ _ => none)
          (MasterState.mk [WorkerH.mk "q" 4] false 5 none [] false)).1 :=
  have h1 := sigint_transitions (fun _ _ => none)
    (MasterState.mk [WorkerH.mk "q" 4] false 5 none [] false) true
  have h2 := sigint_transitions (fun _ _ => none)
    (MasterState.mk [WorkerH.mk "q" 4] false 5 none [] false) false
  ⟨h1.1 rfl rfl, h2.2.2.1 rfl, h1.2.2.2.2.2.2.2⟩

theorem spawnWorkers_queues :
    ∀ (qs : List String) (ws : List WorkerH) (np : Nat),
      ((spawnWorkers qs ws np).1).map WorkerH.queue_name =
        ws.map WorkerH.queue_name ++ qs
  | [], ws, np => by simp [spawnWorkers]
  | q :: qs, ws, np => by
    have ih := spawnWorkers_queues qs (ws ++ [⟨q, np⟩]) (np + 1)
    simp only [spawnWorkers, ih, List.map_append]
    simp

/-- C9: with a reloadable configuration, `reload` reloads it, starts a
fresh worker set from the newly resolved queue list, and only then sends
graceful termination to exactly the previous worker set, one SIGTERM per
old handle; with a non-reloadable configuration it degrades to signalling
the current workers without starting replacements, leaving the state
untouched. -/
theorem reload_semantics (hostname : String) (osKill : Nat → Bool → Option Nat)
    (newCfg : List (String × String)) (st : MasterState) (qs : List String)
    (hok : ∀ p k, osKill p k = none) :
    (st.cfgReloadable = true →
      parse_queues_str hostname
          (get_queues hostname { st with cfgWorkers := newCfg, workers := [] }) =
        .ok qs →
      reload hostname osKill newCfg st = .ok
        (MasterState.mk (spawnWorkers qs [] st.nextPid).1 st.shutdown_pending
            (spawnWorkers qs [] st.nextPid).2.1 st.override_queues newCfg
            st.cfgReloadable,
          (spawnWorkers qs [] st.nextPid).2.2 ++
            st.workers.map (fun (w : WorkerH) => Event.sendSignal w.pid false),
          none)
      ∧ ((spawnWorkers qs [] st.nextPid).1).map WorkerH.queue_name = qs)
    ∧ (st.cfgReloadable = false →
      reload hostname osKill newCfg st = .ok
        (st, st.workers.map (fun (w : WorkerH) => Event.sendSignal w.pid false),
          none)) := by
  constructor
  · intro hr hparse
    constructor
    · rw [hr] at hparse
      simp [reload, hr, start_workers, hparse, stop_workers,
        sendSignals_of_ok osKill hok false]
    · have h := spawnWorkers_queues qs [] st.nextPid
      simpa using h
  · intro hr
    simp [reload, hr, stop_workers, sendSignals_of_ok osKill hok false]

/-- Witness for `reload_semantics`: a reloadable configuration whose
reloaded `WORKERS` maps host `h` to `"a,b"`; the old single worker is
SIGTERMed after the two fresh workers are started. -/
theorem reload_semantics_witness :
    reload "h" (fun _ _ => none) [("h", "a,b")]
        (MasterState.mk [WorkerH.mk "old" 1] false 5 none [("h", "z")] true) = .ok
      (MasterState.mk [WorkerH.mk "a" 5, WorkerH.mk "b" 6] false 7 none
          [("h", "a,b")] true,
        [Event.spawn "a" 5, Event.spawn "b" 6, Event.sendSignal 1 false],
        none)
    ∧ ((spawnWorkers ["a", "b"] [] 5).1).map WorkerH.queue_name = ["a", "b"] :=
  (reload_semantics "h" (fun _ _ => none) [("h", "a,b")]
    (MasterState.mk [WorkerH.mk "old" 1] false 5 none [("h", "z")] true)
    ["a", "b"] (fun _ _ => rfl)).1 rfl (by decide)

/-- C2 counterexample: a control-plane command naming an operation the
Master does not have is not answered with a logged `UnknownCommand`; the
`getattr` raises `AttributeError`, which the link's handlers (socket
errors only) do not catch, so the manager-link thread crashes. -/
theorem unknown_command_crashes_link :
    receiveStep classOnlyResolver (.ok "does_not_exist") = .error .attributeError
    ∧ linkSurvives classOnlyResolver (.ok "does_not_exist") = false := by decide

/-- C2 (amended): inbound command names are resolved by plain attribute
lookup on the Master — there is no fixed allow-list. For every resolution
oracle that resolves at least the names class `Master` defines (as the
real instance does): a name `getattr` does not resolve raises
`AttributeError`, which crashes the link thread (before any Master state
can be touched, the failure preceding any call), whereas every name the
class defines — internal methods such as `_kill_pg` included — is
dispatched and invoked, the link surviving; a would-block receive
(socket error) is survived. -/
theorem dispatch_no_allowlist (resolves : String → Bool) (f g : String)
    (hclass : ∀ n ∈ masterClassAttributeNames, resolves n = true)
    (hf : resolves f = false) (hg : g ∈ masterClassAttributeNames) :
    receiveStep resolves (.ok f) = .error .attributeError
    ∧ linkSurvives resolves (.ok f) = false
    ∧ receiveStep resolves (.ok g) = .ok ()
    ∧ linkSurvives resolves (.ok g) = true
    ∧ linkSurvives resolves (.error .socketError) = true
    ∧ "_kill_pg" ∈ masterClassAttributeNames := by
  have hd : dispatchName resolves f = .error .attributeError := by
    simp [dispatchName, hf]
  have hdg : dispatchName resolves g = .ok () := by
    simp [dispatchName, hclass g hg]
  refine ⟨?_, ?_, ?_, ?_, rfl, by decide⟩
  · simp [receiveStep, hd]
  · simp [linkSurvives, receiveStep, hd]
  · simp [receiveStep, hdg]
  · simp [linkSurvives, receiveStep, hdg]

/-- Witness for `dispatch_no_allowlist`: under the class-defined
resolution oracle, the unresolvable `"frobnicate"` crashes the link and
the internal `_kill_pg` is dispatched. -/
theorem dispatch_no_allowlist_witness :
    receiveStep classOnlyResolver (.ok "frobnicate") = .error .attributeError
    ∧ linkSurvives classOnlyResolver (.ok "frobnicate") = false
    ∧ receiveStep classOnlyResolver (.ok "_kill_pg") = .ok ()
    ∧ linkSurvives classOnlyResolver (.ok "_kill_pg") = true
    ∧ linkSurvives classOnlyResolver (.error .socketError) = true
    ∧ "_kill_pg" ∈ masterClassAttributeNames :=
  dispatch_no_allowlist classOnlyResolver "frobnicate" "_kill_pg"
    (by decide) (by decide) (by decide)
